import Mathlib

/-
  Verification of the worker/pipeline program in src/main.rs.

  The Rust program distributes numbered tasks over a pool of worker threads.
  Each worker pops task ids from a shared queue and, per task, runs a
  two-stage external pipeline (mxdys enumeration, then sligocki enumeration)
  followed by an artifact relocation step, while capturing subprocess output
  into a per-worker TaskInfo structure guarded by a mutex.

  The embedding below is a shallow one: the imperative body of each Rust
  function is translated into either a pure Lean function or a list of
  events (for traced, effectful code), and the concurrent queue consumption
  is modelled by a small-step transition relation on a pool state.
-/

namespace BB7

/-! ## Configuration constants (src/main.rs lines 8-16) -/

def WORKING_DIR : String := "/path/to/some/folder"

def COMPLETED_DIR : String := "/some/other/folder"

def N_WORKERS : Nat := 5

def MXDYS_BB7_TM_EXECUTABLE : String := "/path/to/mxdys/executable"

def PYTHON_EXECUTABLE : String := "python"

def PYENV_VIRTUALENV : Option String := none

def ENUMERATE_PY_PATH : String := "/something/something/Code/Enumerate.py"

/-! ## Stage markers (enum TaskKind, src/main.rs lines 126-133) -/

inductive TaskKind where
  | Uninit : TaskKind
  | MxdysEnum : Nat → TaskKind
  | SligockiEnum : Nat → TaskKind
  | MoveFile : TaskKind
  | Done : TaskKind
deriving DecidableEq

/-! ## The stdout ring buffer (CircularBuffer<20, String>, src/main.rs line 138)

The crate circular_buffer has push_back append an element at the back,
overwriting (evicting) the element at the front when the buffer is full.
The buffer is modelled as a list whose head is the front (oldest line). -/

def RING_CAPACITY : Nat := 20

def push_back (buf : List String) (s : String) : List String :=
  if buf.length < RING_CAPACITY then buf ++ [s] else buf.tail ++ [s]

/-! ## TaskInfo (src/main.rs lines 135-151)

Instant timestamps are modelled as abstract natural-number times. -/

structure TaskInfo where
  kind : TaskKind
  start_time : Nat
  out_buf : List String
  err_buf : List String
deriving DecidableEq

def TaskInfo.new (now : Nat) : TaskInfo :=
  { kind := TaskKind.Uninit, start_time := now, out_buf := [], err_buf := [] }

/-! ## Commands (make_sligocki_command, start_mxdys_task; src/main.rs 207-229, 241-244) -/

structure Cmd where
  program : String
  args : List String
  envs : List (String × String)
  current_dir : String
deriving DecidableEq

/-- Rust formatting of the task id with the 06 width specifier: decimal digits,
left-padded with zeros to a minimum width of six. -/
def zeroPad6 (n : Nat) : String :=
  let s := toString n
  String.mk (List.replicate (6 - s.length) '0') ++ s

def artifact_name (task_id : Nat) : String :=
  "bb7_" ++ zeroPad6 task_id ++ ".out.pb"

def make_sligocki_command (task_id : Nat) : Cmd :=
  { program := PYTHON_EXECUTABLE
    args := [ENUMERATE_PY_PATH,
      "--infile",
      "holdouts_" ++ toString task_id ++ ".txt",
      "--outfile",
      artifact_name task_id,
      "-r",
      "--no-steps",
      "--exp-linear-rules",
      "--max-loops=100_000",
      "--block-mult=2",
      "--time=30",
      "--force",
      "--save-freq=50",
      "--debug-print-current"]
    envs := match PYENV_VIRTUALENV with
      | some venv_name => [("PYENV_VERSION", venv_name)]
      | none => []
    current_dir := WORKING_DIR }

def make_mxdys_command (task_id : Nat) : Cmd :=
  { program := MXDYS_BB7_TM_EXECUTABLE
    args := ["enum", toString task_id]
    envs := []
    current_dir := WORKING_DIR }

/-! ## Exit outcomes (child.wait() and its rendering; src/main.rs 256-261, 271-276)

child.wait() returns a Result: an Err (no observable status) is modelled as
none, an Ok status as some ExitStatus carrying its success flag and the
Display rendering used by the format call on the failure branch. -/

structure ExitStatus where
  success : Bool
  descr : String
deriving DecidableEq

/-- The map_or closure applied to the wait result in combined_enumeration. -/
def exit_str (w : Option ExitStatus) : String :=
  match w with
  | none => "already exited"
  | some r => if r.success then "success" else r.descr

/-! ## Relocation diagnostics (eprintln calls, src/main.rs 293 and 297) -/

inductive Diag where
  | moveFailed : String → String → Diag
  | notFound : String → Diag
deriving DecidableEq

def path_from (task_id : Nat) : String :=
  WORKING_DIR ++ "/" ++ artifact_name task_id

def path_to (task_id : Nat) : String :=
  COMPLETED_DIR ++ "/" ++ artifact_name task_id

/-! ## Events

Each event is one observable action of the pipeline body: a field update of
the locked TaskInfo, a spawn, a blocking wait, a reader-thread line push, a
console line, or a filesystem rename attempt. -/

inductive Event where
  | setKind : TaskKind → Event
  | clearErr : Event
  | setStartTime : Nat → Event
  | spawn : Cmd → Event
  | waitExit : Option ExitStatus → Event
  | pushOut : String → Event
  | pushErr : String → Event
  | logStage : String → Nat → Nat → String → Event
  | logWorkerDone : Nat → String → Event
  | logErr : Diag → Event
  | renameArtifact : String → String → Bool → Event
deriving DecidableEq

/-- Environment of one stage of one task: the start instant recorded before
spawning, the lines the reader threads deliver, the wait result, and the
instant at which the elapsed time is read for the completion line. -/
structure StageEnv where
  startTime : Nat
  stdoutLines : List String
  stderrLines : List String
  waitResult : Option ExitStatus
  logTime : Nat
deriving DecidableEq

/-- Environment of one full task. -/
structure TaskEnv where
  mxdys : StageEnv
  sligocki : StageEnv
  artifactExists : Bool
  renameOk : Bool
deriving DecidableEq

/-- Events of start_sligocki_task / start_mxdys_task up to and including the
spawn inside ProcessWithBuffer::new (src/main.rs 159-169, 231-251): set the
stage marker and clear the stderr log under the lock, then record the start
time under the lock, then spawn. -/
def start_task_events (k : TaskKind) (c : Cmd) (se : StageEnv) : List Event :=
  [Event.setKind k, Event.clearErr, Event.setStartTime se.startTime, Event.spawn c]

/-- Events of one stage block of combined_enumeration (src/main.rs 254-282):
start the task, reader threads push captured lines, block on wait, then print
the completion line with the elapsed time and the rendered exit outcome. -/
def stage_events (stage : String) (task_id : Nat) (k : TaskKind) (c : Cmd)
    (se : StageEnv) : List Event :=
  start_task_events k c se
    ++ se.stdoutLines.map Event.pushOut
    ++ se.stderrLines.map Event.pushErr
    ++ [Event.waitExit se.waitResult,
        Event.logStage stage task_id (se.logTime - se.startTime) (exit_str se.waitResult)]

/-- Events of the relocation block of combined_enumeration (src/main.rs
284-298): set the MoveFile marker, then either attempt the rename (logging a
diagnostic when it fails) or log that the artifact was not found. -/
def relocation_events (task_id : Nat) (artifact_present rename_ok : Bool) : List Event :=
  [Event.setKind TaskKind.MoveFile] ++
    (if artifact_present then
      [Event.renameArtifact (path_from task_id) (path_to task_id) rename_ok] ++
        (if rename_ok then []
         else [Event.logErr (Diag.moveFailed (path_from task_id) (path_to task_id))])
     else [Event.logErr (Diag.notFound (path_from task_id))])

/-- The full event trace of combined_enumeration (src/main.rs 253-299). -/
def combined_enumeration (task_id : Nat) (env : TaskEnv) : List Event :=
  stage_events "mxdys" task_id (TaskKind.MxdysEnum task_id) (make_mxdys_command task_id) env.mxdys
    ++ stage_events "sligocki" task_id (TaskKind.SligockiEnum task_id)
        (make_sligocki_command task_id) env.sligocki
    ++ relocation_events task_id env.artifactExists env.renameOk

/-! ## Effect of events on the locked TaskInfo -/

def apply_event (st : TaskInfo) : Event → TaskInfo
  | Event.setKind k => { st with kind := k }
  | Event.clearErr => { st with err_buf := [] }
  | Event.setStartTime t => { st with start_time := t }
  | Event.pushOut s => { st with out_buf := push_back st.out_buf s }
  | Event.pushErr s => { st with err_buf := st.err_buf ++ [s] }
  | _ => st

def run_events (st : TaskInfo) (evs : List Event) : TaskInfo :=
  evs.foldl apply_event st

/-! ## The worker loop (Worker::new, src/main.rs 52-72)

A worker repeatedly pops from the shared queue; the ids it receives, together
with the environment of each resulting pipeline run, form the list consumed
below. On an empty pop it prints the finished line (with the last captured
stdout line, or the placeholder when the buffer is empty), sets its marker to
Done, and breaks out of the loop. -/

def worker_loop (wid : Nat) : List (Nat × TaskEnv) → TaskInfo → TaskInfo × List Event
  | [], st =>
      ({ st with kind := TaskKind.Done },
        [Event.logWorkerDone wid (st.out_buf.getLast?.getD "buffer empty"),
         Event.setKind TaskKind.Done])
  | (task_id, env) :: rest, st =>
      let r := worker_loop wid rest (run_events st (combined_enumeration task_id env))
      (r.1, combined_enumeration task_id env ++ r.2)

/-! ## Status reporting and completion detection (WorkerGroup, src/main.rs 95-116)

A status line is modelled structurally: the leading marker string, the worker
id, the stage marker, the elapsed time since stage start, and the last
captured stdout line (or the placeholder). Duration pretty-printing is out of
scope, so elapsed stays a number. -/

structure StatusLine where
  leading : String
  wid : Nat
  kind : TaskKind
  elapsed : Nat
  lastLine : String
deriving DecidableEq

def status_line (leading : String) (now : Nat) (wid : Nat) (info : TaskInfo) : StatusLine :=
  { leading := leading
    wid := wid
    kind := info.kind
    elapsed := now - info.start_time
    lastLine := info.out_buf.getLast?.getD "buffer empty" }

/-- The loop body of WorkerGroup::print_status: the first printed line gets
the marker passed in, every later one gets a blank. -/
def print_status_go (now : Nat) (leading : String) :
    List (Nat × TaskInfo) → List StatusLine
  | [] => []
  | (wid, info) :: rest =>
      if info.kind ≠ TaskKind.Done then
        status_line leading now wid info :: print_status_go now " " rest
      else
        print_status_go now leading rest

def print_status (now : Nat) (ws : List (Nat × TaskInfo)) : List StatusLine :=
  print_status_go now ">" ws

/-- The status report as the spec describes it: one line per non-Done worker,
in order, the first line with the distinct leading marker. -/
def print_status_spec (now : Nat) (ws : List (Nat × TaskInfo)) : List StatusLine :=
  match ws.filter (fun w => w.2.kind ≠ TaskKind.Done) with
  | [] => []
  | w :: rest =>
      status_line ">" now w.1 w.2 :: rest.map (fun v => status_line " " now v.1 v.2)

/-- WorkerGroup::is_done (src/main.rs 108-116): scan the workers, returning
false at the first marker that differs from Done. -/
def is_done : List TaskInfo → Bool
  | [] => true
  | info :: rest => if info.kind ≠ TaskKind.Done then false else is_done rest

/-! ## Relocation as a filesystem transformer (src/main.rs 284-298)

The relevant filesystem state is the set of file names in the working and the
completed directory; rename failure is an environment bit. The function is
total: every branch of the Rust block returns normally, surfacing problems
only as diagnostics. -/

structure FS where
  working : List String
  completed : List String
deriving DecidableEq

def relocate_artifact (task_id : Nat) (rename_ok : Bool) (fs : FS) : FS × List Diag :=
  let fname := artifact_name task_id
  if fs.working.contains fname then
    if rename_ok then
      ({ working := fs.working.erase fname, completed := fs.completed ++ [fname] }, [])
    else
      (fs, [Diag.moveFailed (path_from task_id) (path_to task_id)])
  else
    (fs, [Diag.notFound (path_from task_id)])

/-! ## The concurrent pool (main + Worker::new + SegQueue; src/main.rs 18-26, 52-72)

The shared SegQueue with its atomic pop, and the workers racing on it, are
modelled as a small-step transition relation on a pool state. A step is
either one worker atomically popping the front id (the pipeline run between
two pops touches only the state owned by that worker, so it is folded into the pop
step — this encodes the assumption that external commands return), or one
worker observing the empty queue and becoming Done. -/

structure WorkerSt where
  finished : Bool
  popped : List Nat
deriving DecidableEq

structure PoolState (n : Nat) where
  queue : List Nat
  workers : Fin n → WorkerSt

def init_pool (ids : List Nat) (n : Nat) : PoolState n :=
  { queue := ids, workers := fun _ => { finished := false, popped := [] } }

inductive PoolStep {n : Nat} : PoolState n → PoolState n → Prop where
  | pop (s : PoolState n) (i : Fin n) (x : Nat) (q : List Nat) :
      (s.workers i).finished = false → s.queue = x :: q →
      PoolStep s
        { queue := q
          workers := Function.update s.workers i
            { finished := false, popped := (s.workers i).popped ++ [x] } }
  | finish (s : PoolState n) (i : Fin n) :
      (s.workers i).finished = false → s.queue = [] →
      PoolStep s
        { queue := []
          workers := Function.update s.workers i
            { finished := true, popped := (s.workers i).popped } }

def Reach {n : Nat} (s s' : PoolState n) : Prop :=
  Relation.ReflTransGen PoolStep s s'

def Terminal {n : Nat} (s : PoolState n) : Prop :=
  ∀ s', ¬ PoolStep s s'

def pool_count {n : Nat} (s : PoolState n) (y : Nat) : Nat :=
  s.queue.count y + ∑ i : Fin n, ((s.workers i).popped.count y)

def running_set {n : Nat} (s : PoolState n) : Finset (Fin n) :=
  Finset.univ.filter (fun i => (s.workers i).finished = false)

def pool_measure {n : Nat} (s : PoolState n) : Nat :=
  s.queue.length + (running_set s).card

/-! ## Concrete task environments for the buffer-persistence scenario -/

/-- A task run whose mxdys stage emits one stdout line and whose later stages
emit none. -/
def env_with_output : TaskEnv :=
  { mxdys := { startTime := 0, stdoutLines := ["line from the first task"], stderrLines := []
               waitResult := some { success := true, descr := "" }, logTime := 1 }
    sligocki := { startTime := 1, stdoutLines := [], stderrLines := []
                  waitResult := some { success := true, descr := "" }, logTime := 2 }
    artifactExists := true
    renameOk := true }

/-- A task run during which no stdout line at all is captured. -/
def env_without_output : TaskEnv :=
  { mxdys := { startTime := 2, stdoutLines := [], stderrLines := []
               waitResult := some { success := true, descr := "" }, logTime := 3 }
    sligocki := { startTime := 3, stdoutLines := [], stderrLines := []
                  waitResult := some { success := true, descr := "" }, logTime := 4 }
    artifactExists := true
    renameOk := true }

/-! ## Event classification predicates -/

/-- An event that spawns an external process. -/
def is_spawn : Event → Bool
  | Event.spawn _ => true
  | _ => false

/-- Milestones of one pipeline run: the two spawns, the two blocking waits,
entering the relocation stage, and the relocation action itself (the rename
attempt, or the missing-artifact diagnostic). -/
def is_milestone : Event → Bool
  | Event.spawn _ => true
  | Event.waitExit _ => true
  | Event.setKind TaskKind.MoveFile => true
  | Event.renameArtifact _ _ _ => true
  | Event.logErr (Diag.notFound _) => true
  | _ => false

/-- Events other than the blocking wait and the completion line that renders
its outcome: everything the pipeline does beyond observing and logging the
exit outcome. -/
def is_effect : Event → Bool
  | Event.waitExit _ => false
  | Event.logStage _ _ _ _ => false
  | _ => true

/-! ## Helper lemmas -/

theorem push_back_length {buf : List String} (h : buf.length ≤ RING_CAPACITY) (s : String) :
    (push_back buf s).length ≤ RING_CAPACITY := by
  unfold push_back
  by_cases hlt : buf.length < RING_CAPACITY
  · rw [if_pos hlt]
    simp only [List.length_append, List.length_singleton, RING_CAPACITY] at hlt ⊢
    omega
  · rw [if_neg hlt]
    simp only [List.length_append, List.length_singleton, List.length_tail,
      RING_CAPACITY] at h ⊢
    omega

theorem foldl_push_back (lines : List String) :
    ∀ buf : List String, buf.length ≤ RING_CAPACITY →
      List.foldl push_back buf lines
        = (buf ++ lines).drop (buf.length + lines.length - RING_CAPACITY) := by
  induction lines with
  | nil =>
      intro buf h
      simp [Nat.sub_eq_zero_of_le h]
  | cons l ls ih =>
      intro buf h
      rw [List.foldl_cons]
      by_cases hlt : buf.length < RING_CAPACITY
      · rw [show push_back buf l = buf ++ [l] from by simp [push_back, hlt]]
        rw [ih (buf ++ [l])
          (by simp only [List.length_append, List.length_singleton, RING_CAPACITY] at hlt ⊢
              omega)]
        rw [show buf ++ [l] ++ ls = buf ++ l :: ls from by simp]
        have hidx : (buf ++ [l]).length + ls.length - RING_CAPACITY
            = buf.length + (l :: ls).length - RING_CAPACITY := by
          simp only [List.length_append, List.length_singleton, List.length_cons,
            List.length_nil, RING_CAPACITY]
          omega
        rw [hidx]
      · have hbe : buf.length = RING_CAPACITY := Nat.le_antisymm h (Nat.not_lt.mp hlt)
        rw [show push_back buf l = buf.tail ++ [l] from by simp [push_back, hlt]]
        rw [ih (buf.tail ++ [l])
          (by simp only [List.length_append, List.length_singleton, List.length_tail,
                RING_CAPACITY] at hbe ⊢
              omega)]
        obtain ⟨x, xs, rfl⟩ : ∃ x xs, buf = x :: xs := by
          cases buf with
          | nil => simp [RING_CAPACITY] at hbe
          | cons x xs => exact ⟨x, xs, rfl⟩
        have hxs : xs.length = 19 := by
          simp only [List.length_cons, RING_CAPACITY] at hbe
          omega
        simp only [List.tail_cons, List.cons_append]
        rw [show xs ++ [l] ++ ls = xs ++ l :: ls from by simp]
        have hidx1 : (xs ++ [l]).length + ls.length - RING_CAPACITY = ls.length := by
          simp only [List.length_append, List.length_singleton, hxs, RING_CAPACITY]
          omega
        have hidx2 : (x :: xs).length + (l :: ls).length - RING_CAPACITY = ls.length + 1 := by
          simp only [List.length_cons, hxs, RING_CAPACITY]
          omega
        rw [hidx1, hidx2, List.drop_succ_cons]

theorem print_status_go_blank (now : Nat) (ws : List (Nat × TaskInfo)) :
    print_status_go now " " ws
      = (ws.filter (fun w => w.2.kind ≠ TaskKind.Done)).map
          (fun v => status_line " " now v.1 v.2) := by
  induction ws with
  | nil => rfl
  | cons w rest ih =>
      obtain ⟨wid, info⟩ := w
      by_cases hw : info.kind = TaskKind.Done <;>
        simp [print_status_go, hw, ih]

theorem print_status_go_not_done (now : Nat) (m : String) (ws : List (Nat × TaskInfo)) :
    ∀ line ∈ print_status_go now m ws, line.kind ≠ TaskKind.Done := by
  induction ws generalizing m with
  | nil => simp [print_status_go]
  | cons w rest ih =>
      obtain ⟨wid, info⟩ := w
      by_cases hw : info.kind = TaskKind.Done
      · simpa [print_status_go, hw] using ih m
      · intro line hline
        have hline2 : line = status_line m now wid info ∨ line ∈ print_status_go now " " rest := by
          simpa [print_status_go, hw] using hline
        rcases hline2 with rfl | hmem
        · simpa [status_line] using hw
        · exact ih " " line hmem

/-! ## Claim theorems -/

/-- C2: for every sequence of stdout line appends, the stdout ring buffer
holds at most 20 lines at all times (that is, after every prefix of the
append sequence), and after appending more than 20 lines it holds exactly
the 20 most recently appended lines in their original relative order. -/
theorem ring_buffer_bounded_and_recent (lines : List String) :
    (∀ p q : List String, lines = p ++ q →
        (List.foldl push_back [] p).length ≤ RING_CAPACITY) ∧
    (RING_CAPACITY < lines.length →
        List.foldl push_back [] lines = lines.drop (lines.length - RING_CAPACITY)) := by
  constructor
  · intro p q _
    rw [foldl_push_back p [] (by simp [RING_CAPACITY])]
    simp only [List.nil_append, List.length_nil, List.length_drop]
    omega
  · intro _
    rw [foldl_push_back lines [] (by simp [RING_CAPACITY])]
    simp

theorem ring_buffer_bounded_and_recent_witness :
    (List.foldl push_back [] (List.replicate 3 "x")).length ≤ RING_CAPACITY ∧
    List.foldl push_back [] (List.replicate 25 "x")
      = (List.replicate 25 "x").drop ((List.replicate 25 "x").length - RING_CAPACITY) :=
  ⟨(ring_buffer_bounded_and_recent (List.replicate 25 "x")).1
      (List.replicate 3 "x") (List.replicate 22 "x") (by decide),
   (ring_buffer_bounded_and_recent (List.replicate 25 "x")).2 (by decide)⟩

/-- C3: is_done returns true if and only if every worker has stage marker
Done; while any marker differs it returns false. -/
theorem is_done_iff_all_done (ws : List TaskInfo) :
    is_done ws = true ↔ ∀ info ∈ ws, info.kind = TaskKind.Done := by
  induction ws with
  | nil => simp [is_done]
  | cons w rest ih =>
      by_cases hw : w.kind = TaskKind.Done <;>
        simp [is_done, hw, ih]

/-- C8: print_status prints, in worker order, exactly one line for every
worker whose marker is not Done — with its id, current marker, elapsed time
since stage start, and last captured stdout line or the placeholder when the
buffer is empty, the first printed line bearing the distinct leading
marker and all later ones a blank — and never prints a line for a worker
whose marker is Done. -/
theorem print_status_correct (now : Nat) (ws : List (Nat × TaskInfo)) :
    print_status now ws = print_status_spec now ws ∧
    ∀ line ∈ print_status now ws, line.kind ≠ TaskKind.Done := by
  refine ⟨?_, print_status_go_not_done now ">" ws⟩
  unfold print_status print_status_spec
  induction ws with
  | nil => rfl
  | cons w rest ih =>
      obtain ⟨wid, info⟩ := w
      by_cases hw : info.kind = TaskKind.Done
      · simpa [print_status_go, hw] using ih
      · simp [print_status_go, hw, print_status_go_blank]

/-! ## Trace lemmas -/

theorem filter_map_pushOut (p : Event → Bool) (hp : ∀ s, p (Event.pushOut s) = false)
    (l : List String) : (l.map Event.pushOut).filter p = [] := by
  induction l with
  | nil => rfl
  | cons s rest ih => simp [hp, ih]

theorem filter_map_pushErr (p : Event → Bool) (hp : ∀ s, p (Event.pushErr s) = false)
    (l : List String) : (l.map Event.pushErr).filter p = [] := by
  induction l with
  | nil => rfl
  | cons s rest ih => simp [hp, ih]

theorem filter_map_pushOut_keep (p : Event → Bool) (hp : ∀ s, p (Event.pushOut s) = true)
    (l : List String) : (l.map Event.pushOut).filter p = l.map Event.pushOut := by
  induction l with
  | nil => rfl
  | cons s rest ih => simp [hp, ih]

theorem filter_map_pushErr_keep (p : Event → Bool) (hp : ∀ s, p (Event.pushErr s) = true)
    (l : List String) : (l.map Event.pushErr).filter p = l.map Event.pushErr := by
  induction l with
  | nil => rfl
  | cons s rest ih => simp [hp, ih]

theorem mem_map_pushOut_not_spawn (l : List String) (e : Event)
    (he : e ∈ l.map Event.pushOut) : is_spawn e = false := by
  obtain ⟨s, _, rfl⟩ := List.mem_map.mp he
  rfl

theorem mem_map_pushErr_not_spawn (l : List String) (e : Event)
    (he : e ∈ l.map Event.pushErr) : is_spawn e = false := by
  obtain ⟨s, _, rfl⟩ := List.mem_map.mp he
  rfl

theorem mem_relocation_not_spawn (task_id : Nat) (a b : Bool) (e : Event)
    (he : e ∈ relocation_events task_id a b) : is_spawn e = false := by
  cases a <;> cases b <;>
    (simp only [relocation_events, List.mem_append, List.mem_cons,
       List.not_mem_nil, or_false, if_true, if_false, List.mem_singleton,
       Bool.false_eq_true, ite_true, ite_false] at he
     rcases he with rfl | rfl | rfl <;> rfl)

theorem run_events_append (st : TaskInfo) (l1 l2 : List Event) :
    run_events st (l1 ++ l2) = run_events (run_events st l1) l2 :=
  List.foldl_append apply_event st l1 l2

theorem run_map_pushOut (l : List String) :
    ∀ st : TaskInfo, run_events st (l.map Event.pushOut)
      = { st with out_buf := List.foldl push_back st.out_buf l } := by
  induction l with
  | nil => intro st; rfl
  | cons s rest ih => intro st; simp [run_events, apply_event] at ih ⊢; rw [ih]

theorem run_map_pushErr (l : List String) :
    ∀ st : TaskInfo, run_events st (l.map Event.pushErr)
      = { st with err_buf := st.err_buf ++ l } := by
  induction l with
  | nil => intro st; simp [run_events]
  | cons s rest ih =>
      intro st
      simp only [List.map_cons, run_events, List.foldl_cons] at ih ⊢
      rw [show apply_event st (Event.pushErr s) = { st with err_buf := st.err_buf ++ [s] } from rfl]
      rw [ih]
      simp

theorem run_stage_events (stage : String) (task_id : Nat) (k : TaskKind) (c : Cmd)
    (se : StageEnv) (st : TaskInfo) :
    run_events st (stage_events stage task_id k c se)
      = { kind := k
          start_time := se.startTime
          out_buf := List.foldl push_back st.out_buf se.stdoutLines
          err_buf := se.stderrLines } := by
  unfold stage_events start_task_events
  rw [run_events_append, run_events_append, run_events_append]
  rw [show run_events st
      [Event.setKind k, Event.clearErr, Event.setStartTime se.startTime, Event.spawn c]
      = { st with kind := k, err_buf := [], start_time := se.startTime } from rfl]
  rw [run_map_pushOut, run_map_pushErr]
  rfl

theorem run_relocation_events (task_id : Nat) (a b : Bool) (st : TaskInfo) :
    run_events st (relocation_events task_id a b) = { st with kind := TaskKind.MoveFile } := by
  cases a <;> cases b <;> rfl

theorem run_combined_enumeration (task_id : Nat) (env : TaskEnv) (st : TaskInfo) :
    run_events st (combined_enumeration task_id env)
      = { kind := TaskKind.MoveFile
          start_time := env.sligocki.startTime
          out_buf := List.foldl push_back
            (List.foldl push_back st.out_buf env.mxdys.stdoutLines) env.sligocki.stdoutLines
          err_buf := env.sligocki.stderrLines } := by
  unfold combined_enumeration
  rw [run_events_append, run_events_append, run_stage_events, run_stage_events,
    run_relocation_events]

theorem combined_no_done (task_id : Nat) (env : TaskEnv) :
    ∀ e ∈ combined_enumeration task_id env, e ≠ Event.setKind TaskKind.Done := by
  intro e he hcontra
  subst hcontra
  rcases env with ⟨me, sle, ae, ro⟩
  cases ae <;> cases ro <;>
    simp [combined_enumeration, stage_events, start_task_events, relocation_events] at he

/-- C1: for every task id and every environment (in particular, for every
pair of exit outcomes of the two stages), the pipeline milestone sequence is
exactly: stage-A spawn, stage-A wait-to-completion, stage-B spawn, stage-B
wait-to-completion, then the relocation step (entering the MoveFile stage
followed by the rename attempt or the missing-artifact diagnostic), in that
strict order; a non-zero or abnormal exit outcome never removes a later
milestone. -/
theorem pipeline_strict_order_always_advances (task_id : Nat) (env : TaskEnv) :
    (combined_enumeration task_id env).filter is_milestone
      = [Event.spawn (make_mxdys_command task_id),
         Event.waitExit env.mxdys.waitResult,
         Event.spawn (make_sligocki_command task_id),
         Event.waitExit env.sligocki.waitResult,
         Event.setKind TaskKind.MoveFile]
        ++ (if env.artifactExists then
              [Event.renameArtifact (path_from task_id) (path_to task_id) env.renameOk]
            else [Event.logErr (Diag.notFound (path_from task_id))]) := by
  rcases env with ⟨me, sle, ae, ro⟩
  cases ae <;> cases ro <;>
    simp [combined_enumeration, stage_events, start_task_events, relocation_events,
      is_milestone, List.filter_append,
      filter_map_pushOut is_milestone (fun s => rfl),
      filter_map_pushErr is_milestone (fun s => rfl)]

/-- C6: each of the two external spawns is immediately preceded by, in order,
setting the stage marker, clearing the stderr log, and recording the spawn
start time into the shared log; no spawn occurs between those preparation
events and the spawn they prepare. -/
theorem spawn_preparation (task_id : Nat) (env : TaskEnv) :
    ∃ mid tail,
      combined_enumeration task_id env
        = [Event.setKind (TaskKind.MxdysEnum task_id), Event.clearErr,
            Event.setStartTime env.mxdys.startTime, Event.spawn (make_mxdys_command task_id)]
          ++ mid
          ++ [Event.setKind (TaskKind.SligockiEnum task_id), Event.clearErr,
              Event.setStartTime env.sligocki.startTime,
              Event.spawn (make_sligocki_command task_id)]
          ++ tail ∧
      (∀ e ∈ mid, is_spawn e = false) ∧
      (∀ e ∈ tail, is_spawn e = false) := by
  refine ⟨env.mxdys.stdoutLines.map Event.pushOut ++ env.mxdys.stderrLines.map Event.pushErr
      ++ [Event.waitExit env.mxdys.waitResult,
          Event.logStage "mxdys" task_id (env.mxdys.logTime - env.mxdys.startTime)
            (exit_str env.mxdys.waitResult)],
    env.sligocki.stdoutLines.map Event.pushOut ++ env.sligocki.stderrLines.map Event.pushErr
      ++ [Event.waitExit env.sligocki.waitResult,
          Event.logStage "sligocki" task_id (env.sligocki.logTime - env.sligocki.startTime)
            (exit_str env.sligocki.waitResult)]
      ++ relocation_events task_id env.artifactExists env.renameOk, ?_, ?_, ?_⟩
  · simp [combined_enumeration, stage_events, start_task_events]
  · intro e he
    rcases List.mem_append.mp he with h | h
    · rcases List.mem_append.mp h with h1 | h1
      · exact mem_map_pushOut_not_spawn _ _ h1
      · exact mem_map_pushErr_not_spawn _ _ h1
    · simp only [List.mem_cons, List.not_mem_nil, or_false] at h
      rcases h with rfl | rfl <;> rfl
  · intro e he
    rcases List.mem_append.mp he with h | h
    · rcases List.mem_append.mp h with h1 | h1
      · rcases List.mem_append.mp h1 with h2 | h2
        · exact mem_map_pushOut_not_spawn _ _ h2
        · exact mem_map_pushErr_not_spawn _ _ h2
      · simp only [List.mem_cons, List.not_mem_nil, or_false] at h1
        rcases h1 with rfl | rfl <;> rfl
    · exact mem_relocation_not_spawn _ _ _ _ h

/-- C7: the wait outcome of each stage is rendered as a string — success on a
zero exit status, the code-or-signal description on a non-zero or abnormal
exit, and an already-exited marker when no status is observable — and this
string only appears in log events: over all wait outcomes, the non-logging
events of the pipeline trace and the resulting TaskInfo state are
identical. -/
theorem exit_outcome_only_logged (task_id : Nat) (env : TaskEnv)
    (w1 w2 : Option ExitStatus) :
    exit_str none = "already exited" ∧
    (∀ d : String, exit_str (some { success := true, descr := d }) = "success") ∧
    (∀ d : String, exit_str (some { success := false, descr := d }) = d) ∧
    (combined_enumeration task_id
        { env with mxdys := { env.mxdys with waitResult := w1 }
                   sligocki := { env.sligocki with waitResult := w2 } }).filter is_effect
      = (combined_enumeration task_id env).filter is_effect ∧
    ∀ st : TaskInfo,
      run_events st (combined_enumeration task_id
          { env with mxdys := { env.mxdys with waitResult := w1 }
                     sligocki := { env.sligocki with waitResult := w2 } })
        = run_events st (combined_enumeration task_id env) := by
  refine ⟨rfl, fun d => rfl, fun d => rfl, ?_, ?_⟩
  · rcases env with ⟨me, sle, ae, ro⟩
    cases ae <;> cases ro <;>
      simp [combined_enumeration, stage_events, start_task_events, relocation_events,
        is_effect, List.filter_append,
        filter_map_pushOut_keep is_effect (fun s => rfl),
        filter_map_pushErr_keep is_effect (fun s => rfl)]
  · intro st
    rw [run_combined_enumeration, run_combined_enumeration]

/-- C4: the relocation step computes the artifact filename from the
six-digit zero-padded task id and moves it from the working directory to the
completed directory; when the file is absent, and when the rename fails, it
only logs a diagnostic and still returns a result — every branch of the
relocation function returns normally. -/
theorem relocation_best_effort (task_id : Nat) (fs : FS) (ok : Bool) :
    artifact_name task_id = "bb7_" ++ zeroPad6 task_id ++ ".out.pb" ∧
    ((toString task_id).length ≤ 6 → (zeroPad6 task_id).length = 6) ∧
    (fs.working.contains (artifact_name task_id) = false →
        relocate_artifact task_id ok fs = (fs, [Diag.notFound (path_from task_id)])) ∧
    (fs.working.contains (artifact_name task_id) = true → ok = false →
        relocate_artifact task_id ok fs
          = (fs, [Diag.moveFailed (path_from task_id) (path_to task_id)])) ∧
    (fs.working.contains (artifact_name task_id) = true → ok = true →
        relocate_artifact task_id ok fs
          = ({ working := fs.working.erase (artifact_name task_id)
               completed := fs.completed ++ [artifact_name task_id] }, [])) := by
  refine ⟨rfl, ?_, ?_, ?_, ?_⟩
  · intro h
    unfold zeroPad6
    rw [String.length_append]
    rw [show (String.mk (List.replicate (6 - (toString task_id).length) '0')).length
        = (List.replicate (6 - (toString task_id).length) '0').length from rfl]
    rw [List.length_replicate]
    omega
  · intro h
    simp only [relocate_artifact, h]
    rw [if_neg Bool.false_ne_true]
  · intro h hok
    subst hok
    simp only [relocate_artifact, h]
    simp
  · intro h hok
    subst hok
    simp only [relocate_artifact, h]
    simp

theorem relocation_best_effort_witness :
    (zeroPad6 3).length = 6 ∧
    relocate_artifact 4 true { working := [], completed := [] }
      = ({ working := [], completed := [] }, [Diag.notFound (path_from 4)]) ∧
    relocate_artifact 5 false { working := [artifact_name 5], completed := [] }
      = ({ working := [artifact_name 5], completed := [] },
         [Diag.moveFailed (path_from 5) (path_to 5)]) ∧
    relocate_artifact 3 true { working := [artifact_name 3], completed := [] }
      = ({ working := ([artifact_name 3]).erase (artifact_name 3)
           completed := [] ++ [artifact_name 3] }, []) :=
  ⟨(relocation_best_effort 3 { working := [], completed := [] } true).2.1 (by decide),
   (relocation_best_effort 4 { working := [], completed := [] } true).2.2.1 (by decide),
   (relocation_best_effort 5 { working := [artifact_name 5], completed := [] } false).2.2.2.1
     (by decide) rfl,
   (relocation_best_effort 3 { working := [artifact_name 3], completed := [] } true).2.2.2.2
     (by decide) rfl⟩

/-- C5: a worker sets its stage marker to Done exactly once, only at queue
exhaustion: the full event trace of a worker run ends with the final status
line carrying the last captured stdout line (or the placeholder when the
buffer is empty) followed by the single Done marker write, no earlier event
writes Done, and the loop terminates with the marker left at Done. -/
theorem worker_done_terminal (wid : Nat) (tasks : List (Nat × TaskEnv)) (st : TaskInfo) :
    ∃ evs,
      (worker_loop wid tasks st).2
        = evs ++ [Event.logWorkerDone wid
              (((worker_loop wid tasks st).1).out_buf.getLast?.getD "buffer empty"),
            Event.setKind TaskKind.Done] ∧
      (∀ e ∈ evs, e ≠ Event.setKind TaskKind.Done) ∧
      ((worker_loop wid tasks st).1).kind = TaskKind.Done := by
  induction tasks generalizing st with
  | nil =>
      exact ⟨[], by simp [worker_loop], by simp, rfl⟩
  | cons t rest ih =>
      obtain ⟨task_id, env⟩ := t
      obtain ⟨evs, heq, hno, hdone⟩ := ih (run_events st (combined_enumeration task_id env))
      refine ⟨combined_enumeration task_id env ++ evs, ?_, ?_, ?_⟩
      · simp only [worker_loop]
        rw [heq, List.append_assoc]
      · intro e he
        rcases List.mem_append.mp he with h | h
        · exact combined_no_done task_id env e h
        · exact hno e h
      · simpa [worker_loop] using hdone

/-- C10: no operation clears the stdout ring buffer — every event either
leaves it unchanged or performs a single ring-buffer append — while the
spawn preparation of every stage clears the stderr log; consequently the
last stdout line reported at the end of a worker run can originate from an
earlier task, as it does in the concrete two-task run below, whose second
task captures no stdout at all. -/
theorem stdout_buffer_persists :
    (∀ (st : TaskInfo) (e : Event),
        (apply_event st e).out_buf = st.out_buf ∨
        ∃ s, (apply_event st e).out_buf = push_back st.out_buf s) ∧
    (∀ (k : TaskKind) (c : Cmd) (se : StageEnv) (st : TaskInfo),
        run_events st (start_task_events k c se)
          = { st with kind := k, err_buf := [], start_time := se.startTime }) ∧
    ((worker_loop 0 [(1, env_with_output), (2, env_without_output)] (TaskInfo.new 0)).1.out_buf
        = ["line from the first task"]) ∧
    ((worker_loop 0 [(1, env_with_output), (2, env_without_output)] (TaskInfo.new 0)).2.contains
        (Event.logWorkerDone 0 "line from the first task") = true) := by
  refine ⟨?_, fun k c se st => rfl, by decide, by decide⟩
  intro st e
  cases e with
  | pushOut s => exact Or.inr ⟨s, rfl⟩
  | setKind k => exact Or.inl rfl
  | clearErr => exact Or.inl rfl
  | setStartTime t => exact Or.inl rfl
  | spawn c => exact Or.inl rfl
  | waitExit r => exact Or.inl rfl
  | pushErr s => exact Or.inl rfl
  | logStage a b c d => exact Or.inl rfl
  | logWorkerDone a b => exact Or.inl rfl
  | logErr d => exact Or.inl rfl
  | renameArtifact a b c => exact Or.inl rfl

/-! ## Pool invariants (towards C9) -/

theorem sum_update_popped {n : Nat} (f : Fin n → WorkerSt) (i : Fin n) (w : WorkerSt)
    (y : Nat) :
    ∑ j : Fin n, ((Function.update f i w j).popped.count y)
      = w.popped.count y + ∑ j ∈ Finset.univ.erase i, ((f j).popped.count y) := by
  rw [← Finset.add_sum_erase Finset.univ
    (fun j => ((Function.update f i w j).popped.count y)) (Finset.mem_univ i)]
  rw [Function.update_same]
  congr 1
  exact Finset.sum_congr rfl (fun j hj => by
    rw [Function.update_noteq (Finset.ne_of_mem_erase hj)])

theorem step_pool_count {n : Nat} {s s' : PoolState n} (h : PoolStep s s') (y : Nat) :
    pool_count s' y = pool_count s y := by
  cases h with
  | pop i x q hrun hq =>
      unfold pool_count
      simp only [sum_update_popped]
      rw [hq]
      rw [← Finset.add_sum_erase Finset.univ
        (fun j => ((s.workers j).popped.count y)) (Finset.mem_univ i)]
      simp only [List.count_append, List.count_cons, List.count_nil, Nat.zero_add]
      by_cases hxy : (x == y) = true <;> (simp [hxy]; try omega)
  | finish i hrun hq =>
      unfold pool_count
      simp only [sum_update_popped]
      rw [hq]
      rw [← Finset.add_sum_erase Finset.univ
        (fun j => ((s.workers j).popped.count y)) (Finset.mem_univ i)]

theorem reach_pool_count {n : Nat} {ids : List Nat} {s : PoolState n}
    (h : Reach (init_pool ids n) s) (y : Nat) : pool_count s y = List.count y ids := by
  induction h with
  | refl => simp [pool_count, init_pool]
  | tail hab hbc ih => rw [step_pool_count hbc y, ih]

theorem reach_nonempty_running {n : Nat} {ids : List Nat} {s : PoolState n}
    (h : Reach (init_pool ids n) s) :
    s.queue ≠ [] → ∀ i, (s.workers i).finished = false := by
  induction h with
  | refl => intro _ i; rfl
  | tail hab hbc ih =>
      cases hbc with
      | pop i x q hrun hq =>
          intro _ j
          have hall := ih (by rw [hq]; exact List.cons_ne_nil x q)
          by_cases hji : j = i
          · subst hji; simp [Function.update_same]
          · simp [Function.update_noteq hji, hall j]
      | finish i hrun hq =>
          intro hne j
          exact absurd rfl hne

theorem terminal_all_finished {n : Nat} {s : PoolState n} (h : Terminal s) (i : Fin n) :
    (s.workers i).finished = true := by
  by_contra hrun
  have hrun2 : (s.workers i).finished = false := by
    cases hfin : (s.workers i).finished
    · rfl
    · exact absurd hfin hrun
  cases hq : s.queue with
  | nil => exact h _ (PoolStep.finish s i hrun2 hq)
  | cons x q => exact h _ (PoolStep.pop s i x q hrun2 hq)

theorem terminal_queue_empty {n : Nat} {ids : List Nat} {s : PoolState n} (hn : 0 < n)
    (hr : Reach (init_pool ids n) s) (ht : Terminal s) : s.queue = [] := by
  by_contra hne
  have hall := reach_nonempty_running hr hne ⟨0, hn⟩
  have hdone := terminal_all_finished ht ⟨0, hn⟩
  rw [hall] at hdone
  exact Bool.noConfusion hdone

theorem fin_sum_eq_one {n : Nat} {f : Fin n → Nat} (h : ∑ i : Fin n, f i = 1) :
    ∃ i, f i = 1 ∧ ∀ j, j ≠ i → f j = 0 := by
  have hex : ∃ i, f i ≠ 0 := by
    by_contra hno
    push_neg at hno
    rw [Finset.sum_eq_zero (fun i _ => hno i)] at h
    exact absurd h (by decide)
  obtain ⟨i, hi⟩ := hex
  have hsplit := Finset.add_sum_erase Finset.univ f (Finset.mem_univ i)
  rw [← hsplit] at h
  have hfi : f i = 1 := by omega
  have hrest : ∑ j ∈ Finset.univ.erase i, f j = 0 := by omega
  refine ⟨i, hfi, fun j hj => ?_⟩
  exact (Finset.sum_eq_zero_iff.mp hrest) j (Finset.mem_erase.mpr ⟨hj, Finset.mem_univ j⟩)

theorem step_measure {n : Nat} {s s' : PoolState n} (h : PoolStep s s') :
    pool_measure s' < pool_measure s := by
  cases h with
  | pop i x q hrun hq =>
      unfold pool_measure running_set
      have hcard :
          (Finset.univ.filter (fun j =>
            ((Function.update s.workers i
              { finished := false, popped := (s.workers i).popped ++ [x] }) j).finished
                = false)).card
          = (Finset.univ.filter (fun j => (s.workers j).finished = false)).card := by
        congr 1
        apply Finset.filter_congr
        intro j _
        by_cases hji : j = i
        · subst hji; simp [Function.update_same, hrun]
        · simp [Function.update_noteq hji]
      simp only []
      rw [hcard, hq]
      simp only [List.length_cons]
      omega
  | finish i hrun hq =>
      unfold pool_measure running_set
      rw [hq]
      have hmem : i ∈ Finset.univ.filter (fun j => (s.workers j).finished = false) :=
        Finset.mem_filter.mpr ⟨Finset.mem_univ i, hrun⟩
      have hset :
          Finset.univ.filter (fun j =>
            ((Function.update s.workers i
              { finished := true, popped := (s.workers i).popped }) j).finished = false)
          = (Finset.univ.filter (fun j => (s.workers j).finished = false)).erase i := by
        ext j
        simp only [Finset.mem_filter, Finset.mem_erase, Finset.mem_univ, true_and]
        by_cases hji : j = i
        · subst hji; simp [Function.update_same]
        · simp [Function.update_noteq hji, hji]
      simp only []
      rw [hset]
      have hcard := Finset.card_erase_of_mem hmem
      have hpos : 0 < (Finset.univ.filter (fun j => (s.workers j).finished = false)).card :=
        Finset.card_pos.mpr ⟨i, hmem⟩
      simp only [List.length_nil]
      omega

theorem no_infinite_chain {n : Nat} (f : Nat → PoolState n)
    (hstep : ∀ k, PoolStep (f k) (f (k + 1))) : False := by
  have hm : ∀ k, pool_measure (f k) + k ≤ pool_measure (f 0) := by
    intro k
    induction k with
    | zero => omega
    | succ k ih =>
        have := step_measure (hstep k)
        omega
  have := hm (pool_measure (f 0) + 1)
  omega

/-- C9: for every duplicate-free list of pushed task ids and every positive
pool size, every terminal state reachable by the pop/finish transition
system has an empty queue and only finished workers, each pushed id was
popped by exactly one worker exactly once, each popped id was pushed, and no
infinite transition sequence exists (so exhaustion of the queue terminates
every worker and every id is eventually popped). -/
theorem queue_ids_popped_exactly_once (ids : List Nat) (n : Nat) (hn : 0 < n)
    (hnodup : ids.Nodup) :
    (∀ s : PoolState n, Reach (init_pool ids n) s → Terminal s →
        s.queue = [] ∧
        (∀ i, (s.workers i).finished = true) ∧
        (∀ y ∈ ids, ∃ i : Fin n, List.count y ((s.workers i).popped) = 1 ∧
            ∀ j, j ≠ i → List.count y ((s.workers j).popped) = 0) ∧
        (∀ i, ∀ y ∈ (s.workers i).popped, y ∈ ids)) ∧
    ¬ ∃ f : Nat → PoolState n, f 0 = init_pool ids n ∧ ∀ k, PoolStep (f k) (f (k + 1)) := by
  constructor
  · intro s hr ht
    have hqe : s.queue = [] := terminal_queue_empty hn hr ht
    refine ⟨hqe, fun i => terminal_all_finished ht i, ?_, ?_⟩
    · intro y hy
      have hcount := reach_pool_count hr y
      unfold pool_count at hcount
      rw [hqe] at hcount
      rw [List.count_eq_one_of_mem hnodup hy] at hcount
      simp only [List.count_nil, Nat.zero_add] at hcount
      exact fin_sum_eq_one hcount
    · intro i y hy
      have hcount := reach_pool_count hr y
      unfold pool_count at hcount
      have hle : List.count y ((s.workers i).popped)
          ≤ ∑ j : Fin n, List.count y ((s.workers j).popped) :=
        @Finset.single_le_sum (Fin n) Nat _
          (fun j => List.count y ((s.workers j).popped)) Finset.univ
          (fun j _ => Nat.zero_le _) i (Finset.mem_univ i)
      have hpos : 0 < List.count y ((s.workers i).popped) :=
        List.count_pos_iff.mpr hy
      have : 0 < List.count y ids := by omega
      exact List.count_pos_iff.mp this
  · rintro ⟨f, _, hstep⟩
    exact no_infinite_chain f hstep

theorem queue_ids_popped_exactly_once_witness :
    (0 < 2 ∧ ([7, 8] : List Nat).Nodup) ∧
    ((∀ s : PoolState 2, Reach (init_pool [7, 8] 2) s → Terminal s →
        s.queue = [] ∧
        (∀ i, (s.workers i).finished = true) ∧
        (∀ y ∈ ([7, 8] : List Nat), ∃ i : Fin 2, List.count y ((s.workers i).popped) = 1 ∧
            ∀ j, j ≠ i → List.count y ((s.workers j).popped) = 0) ∧
        (∀ i, ∀ y ∈ (s.workers i).popped, y ∈ ([7, 8] : List Nat))) ∧
      ¬ ∃ f : Nat → PoolState 2, f 0 = init_pool [7, 8] 2 ∧ ∀ k, PoolStep (f k) (f (k + 1))) :=
  ⟨⟨by decide, by decide⟩, queue_ids_popped_exactly_once [7, 8] 2 (by decide) (by decide)⟩

end BB7
